import Mathlib

/-!
Verification of the Karatsuba and Toom-3 integer multiplication routines
from `src/python/karatsuba.py` and `src/python/toom3.py`.

Python integers are modelled as `Int`; Python floor division `//` and
modulo `%` are modelled as `Int.fdiv` and `Int.fmod`, which have the same
floor semantics.  Python's `len(str(x))` is modelled by `pyLenStr`.
The fallible tuple unpacking inside `interpolate` is modelled by `Option`.
-/

/-- Character count of Python `str(x)` for an integer `x`: the decimal
digit count, plus one for the minus sign when `x` is negative
(`str(0)` has one character). -/
def pyLenStr (x : Int) : Nat :=
  if x < 0 then (Nat.digits 10 (-x).toNat).length + 1
  else max 1 (Nat.digits 10 x.toNat).length

/-- Embedding of `split_number` from `toom3.py`: split `n` into three
parts in base `b` as `(n % b, (n // b) % b, n // (b * b))`. -/
def split_number (n b : Int) : Int × Int × Int :=
  let x0 := n.fmod b
  let x1 := (n.fdiv b).fmod b
  let x2 := n.fdiv (b * b)
  (x0, x1, x2)

/-- Embedding of `evaluate_at_points` from `toom3.py`: evaluate the
polynomial `x2*t^2 + x1*t + x0` at the points `0, 1, -1, 2, ∞`
(`P(∞)` is the top coefficient `x2`). -/
def evaluate_at_points (x0 x1 x2 : Int) : List Int :=
  let p0 := x0
  let p1 := x0 + x1 + x2
  let p_minus_1 := x0 - x1 + x2
  let p2 := x0 + 2 * x1 + 4 * x2
  let p_inf := x2
  [p0, p1, p_minus_1, p2, p_inf]

/-- Embedding of `interpolate` from `toom3.py`.  The Python function
unpacks its argument as a 5-tuple (raising `ValueError` on any other
length, modelled as `none`) and recovers the five coefficients of the
product polynomial with floor divisions. -/
def interpolate (points : List Int) : Option (Int × Int × Int × Int × Int) :=
  match points with
  | [r0, r1, r_minus_1, r2, r_inf] =>
    let c0 := r0
    let c4 := r_inf
    let c2 := (r1 + r_minus_1).fdiv 2 - c0 - c4
    let S := (r1 - r_minus_1).fdiv 2
    let temp := r2 - c0 - 4 * c2 - 16 * c4
    let D := (5 * S - temp).fdiv 3
    let c1 := (S + D).fdiv 2
    let c3 := (S - D).fdiv 2
    some (c0, c1, c2, c3, c4)
  | _ => none

/-- The pointwise multiplication step inside `toom3`:
`points = [px[i] * py[i] for i in range(5)]`. -/
def pointwise_products (px py : List Int) : List Int :=
  (List.range 5).map fun i => px.getD i 0 * py.getD i 0

/-- Embedding of `toom3` from `toom3.py`.  The result is `none` exactly
when the tuple unpacking inside `interpolate` would raise, which never
happens on the 5-element lists `toom3` builds. -/
def toom3 (x y : Int) : Option Int :=
  if x < 1000 ∨ y < 1000 then some (x * y)
  else
    let n := max (pyLenStr x) (pyLenStr y)
    let b : Int := 10 ^ (n / 3)
    let sx := split_number x b
    let sy := split_number y b
    let px := evaluate_at_points sx.1 sx.2.1 sx.2.2
    let py := evaluate_at_points sy.1 sy.2.1 sy.2.2
    let points := pointwise_products px py
    (interpolate points).map fun c =>
      c.1 + c.2.1 * b + c.2.2.1 * b ^ 2 + c.2.2.2.1 * b ^ 3 + c.2.2.2.2 * b ^ 4

/-- An exact floor division returns the exact quotient. -/
theorem fdiv_exact {a b c : Int} (h : a = b * c) (hb : b ≠ 0) : a.fdiv b = c := by
  rw [h, Int.mul_fdiv_cancel_left _ hb]

theorem coe_fdiv (m n : Nat) : (↑m : Int).fdiv ↑n = ↑(m / n) :=
  (Int.ofNat_fdiv m n).symm

theorem coe_fmod (m n : Nat) : (↑m : Int).fmod ↑n = ↑(m % n) :=
  (Int.ofNat_fmod m n).symm

theorem digits_len_ge_two {z : Nat} (hz : 10 ≤ z) :
    2 ≤ (Nat.digits 10 z).length := by
  rw [Nat.digits_len 10 z (by norm_num) (by omega)]
  have := Nat.log_pos (b := 10) (by norm_num) hz
  omega

theorem pow_digits_len_pred_le {z : Nat} (hz : 1 ≤ z) :
    10 ^ ((Nat.digits 10 z).length - 1) ≤ z := by
  rw [Nat.digits_len 10 z (by norm_num) (by omega)]
  have h := Nat.pow_log_le_self 10 (show z ≠ 0 by omega)
  simpa using h

theorem pyLenStr_coe (X : Nat) :
    pyLenStr ↑X = max 1 (Nat.digits 10 X).length := by
  unfold pyLenStr
  rw [if_neg (by omega)]
  norm_num

theorem pyLenStr_coe_of_ten_le {X : Nat} (hX : 10 ≤ X) :
    pyLenStr ↑X = (Nat.digits 10 X).length := by
  rw [pyLenStr_coe]
  have := digits_len_ge_two hX
  omega

theorem two_le_pyLenStr {x : Int} (hx : 10 ≤ x) : 2 ≤ pyLenStr x := by
  obtain ⟨X, rfl⟩ := Int.eq_ofNat_of_zero_le (by omega : (0:Int) ≤ x)
  have hX : 10 ≤ X := by exact_mod_cast hx
  rw [pyLenStr_coe_of_ten_le hX]
  exact digits_len_ge_two hX

theorem one_le_half_max_len {x y : Int} (hx : 10 ≤ x) (hy : 10 ≤ y) :
    1 ≤ max (pyLenStr x) (pyLenStr y) / 2 := by
  have h1 := two_le_pyLenStr hx
  have h2 := two_le_pyLenStr hy
  omega

theorem divisor_le_max {x y : Int} (hx : 10 ≤ x) (hy : 10 ≤ y) :
    (10 : Int) ^ (max (pyLenStr x) (pyLenStr y) / 2) ≤ x ∨
    (10 : Int) ^ (max (pyLenStr x) (pyLenStr y) / 2) ≤ y := by
  obtain ⟨X, rfl⟩ := Int.eq_ofNat_of_zero_le (by omega : (0:Int) ≤ x)
  obtain ⟨Y, rfl⟩ := Int.eq_ofNat_of_zero_le (by omega : (0:Int) ≤ y)
  have hX : 10 ≤ X := by exact_mod_cast hx
  have hY : 10 ≤ Y := by exact_mod_cast hy
  rw [pyLenStr_coe_of_ten_le hX, pyLenStr_coe_of_ten_le hY]
  have dX := digits_len_ge_two hX
  have dY := digits_len_ge_two hY
  rcases Nat.le_total (Nat.digits 10 Y).length (Nat.digits 10 X).length with hle | hle
  · left
    rw [Nat.max_eq_left hle]
    have h1 : 10 ^ ((Nat.digits 10 X).length / 2) ≤
        10 ^ ((Nat.digits 10 X).length - 1) :=
      Nat.pow_le_pow_right (by norm_num) (by omega)
    have h2 := pow_digits_len_pred_le (show 1 ≤ X by omega)
    exact_mod_cast le_trans h1 h2
  · right
    rw [Nat.max_eq_right hle]
    have h1 : 10 ^ ((Nat.digits 10 Y).length / 2) ≤
        10 ^ ((Nat.digits 10 Y).length - 1) :=
      Nat.pow_le_pow_right (by norm_num) (by omega)
    have h2 := pow_digits_len_pred_le (show 1 ≤ Y by omega)
    exact_mod_cast le_trans h1 h2

theorem measure_div {x y : Int} (hx : 10 ≤ x) (hy : 10 ≤ y) {m : Nat}
    (hm : 1 ≤ m) :
    (x.fdiv (10 ^ m)).toNat + (y.fdiv (10 ^ m)).toNat < x.toNat + y.toNat := by
  obtain ⟨X, rfl⟩ := Int.eq_ofNat_of_zero_le (by omega : (0:Int) ≤ x)
  obtain ⟨Y, rfl⟩ := Int.eq_ofNat_of_zero_le (by omega : (0:Int) ≤ y)
  have hX : 10 ≤ X := by exact_mod_cast hx
  have hY : 10 ≤ Y := by exact_mod_cast hy
  have hp : ((10 : Int) ^ m) = ((10 ^ m : Nat) : Int) := by push_cast; ring
  rw [hp, coe_fdiv, coe_fdiv]
  have h10 : 10 ≤ 10 ^ m := by
    calc 10 = 10 ^ 1 := (pow_one 10).symm
    _ ≤ 10 ^ m := Nat.pow_le_pow_right (by norm_num) hm
  have d1 : X / 10 ^ m < X := Nat.div_lt_self (by omega) (by omega)
  have d2 : Y / 10 ^ m < Y := Nat.div_lt_self (by omega) (by omega)
  omega

theorem measure_mod {x y : Int} (hx : 10 ≤ x) (hy : 10 ≤ y) {m : Nat}
    (hmax : (10 : Int) ^ m ≤ x ∨ (10 : Int) ^ m ≤ y) :
    (x.fmod (10 ^ m)).toNat + (y.fmod (10 ^ m)).toNat < x.toNat + y.toNat := by
  obtain ⟨X, rfl⟩ := Int.eq_ofNat_of_zero_le (by omega : (0:Int) ≤ x)
  obtain ⟨Y, rfl⟩ := Int.eq_ofNat_of_zero_le (by omega : (0:Int) ≤ y)
  have hX : 10 ≤ X := by exact_mod_cast hx
  have hY : 10 ≤ Y := by exact_mod_cast hy
  have hp : ((10 : Int) ^ m) = ((10 ^ m : Nat) : Int) := by push_cast; ring
  rw [hp, coe_fmod, coe_fmod]
  rw [hp] at hmax
  have hmax' : 10 ^ m ≤ X ∨ 10 ^ m ≤ Y := by
    rcases hmax with h | h
    · exact Or.inl (by exact_mod_cast h)
    · exact Or.inr (by exact_mod_cast h)
  have hpos : 0 < 10 ^ m := Nat.pos_pow_of_pos m (by norm_num)
  have m1 : X % 10 ^ m ≤ X := Nat.mod_le X _
  have m2 : Y % 10 ^ m ≤ Y := Nat.mod_le Y _
  have l1 : X % 10 ^ m < 10 ^ m := Nat.mod_lt X hpos
  have l2 : Y % 10 ^ m < 10 ^ m := Nat.mod_lt Y hpos
  omega

theorem measure_sum {x y : Int} (hx : 10 ≤ x) (hy : 10 ≤ y) {m : Nat}
    (hm : 1 ≤ m)
    (hmax : (10 : Int) ^ m ≤ x ∨ (10 : Int) ^ m ≤ y) :
    (x.fdiv (10 ^ m) + x.fmod (10 ^ m)).toNat +
      (y.fdiv (10 ^ m) + y.fmod (10 ^ m)).toNat < x.toNat + y.toNat := by
  obtain ⟨X, rfl⟩ := Int.eq_ofNat_of_zero_le (by omega : (0:Int) ≤ x)
  obtain ⟨Y, rfl⟩ := Int.eq_ofNat_of_zero_le (by omega : (0:Int) ≤ y)
  have hX : 10 ≤ X := by exact_mod_cast hx
  have hY : 10 ≤ Y := by exact_mod_cast hy
  have hp : ((10 : Int) ^ m) = ((10 ^ m : Nat) : Int) := by push_cast; ring
  rw [hp, coe_fdiv, coe_fdiv, coe_fmod, coe_fmod]
  rw [hp] at hmax
  have hmax' : 10 ^ m ≤ X ∨ 10 ^ m ≤ Y := by
    rcases hmax with h | h
    · exact Or.inl (by exact_mod_cast h)
    · exact Or.inr (by exact_mod_cast h)
  have h10 : 10 ≤ 10 ^ m := by
    calc 10 = 10 ^ 1 := (pow_one 10).symm
    _ ≤ 10 ^ m := Nat.pow_le_pow_right (by norm_num) hm
  have e1 : 10 ^ m * (X / 10 ^ m) + X % 10 ^ m = X := Nat.div_add_mod X _
  have e2 : 10 ^ m * (Y / 10 ^ m) + Y % 10 ^ m = Y := Nat.div_add_mod Y _
  have l1 : 2 * (X / 10 ^ m) ≤ 10 ^ m * (X / 10 ^ m) :=
    Nat.mul_le_mul_right _ (by omega)
  have l2 : 2 * (Y / 10 ^ m) ≤ 10 ^ m * (Y / 10 ^ m) :=
    Nat.mul_le_mul_right _ (by omega)
  have p1 : 10 ^ m ≤ X → 1 ≤ X / 10 ^ m := fun h =>
    (Nat.one_le_div_iff (by omega)).mpr h
  have p2 : 10 ^ m ≤ Y → 1 ≤ Y / 10 ^ m := fun h =>
    (Nat.one_le_div_iff (by omega)).mpr h
  omega

/-- Embedding of `karatsuba` from `karatsuba.py`.  Recursion is on the
sum of the magnitudes of the two operands, which strictly decreases at
each of the three recursive calls. -/
def karatsuba (x y : Int) : Int :=
  if x < 10 ∨ y < 10 then x * y
  else
    let n := max (pyLenStr x) (pyLenStr y)
    let m := n / 2
    let divisor : Int := 10 ^ m
    let a := x.fdiv divisor
    let b := x.fmod divisor
    let c := y.fdiv divisor
    let d := y.fmod divisor
    let ac := karatsuba a c
    let bd := karatsuba b d
    let ad_plus_bc := karatsuba (a + b) (c + d) - ac - bd
    ac * 10 ^ (2 * m) + ad_plus_bc * 10 ^ m + bd
termination_by x.toNat + y.toNat
decreasing_by
  · exact measure_div (by omega) (by omega)
      (one_le_half_max_len (by omega) (by omega))
  · exact measure_mod (by omega) (by omega)
      (divisor_le_max (by omega) (by omega))
  · exact measure_sum (by omega) (by omega)
      (one_le_half_max_len (by omega) (by omega))
      (divisor_le_max (by omega) (by omega))

theorem karatsuba_mul_aux : ∀ (k : Nat) (x y : Int),
    x.toNat + y.toNat ≤ k → karatsuba x y = x * y := by
  intro k
  induction k with
  | zero =>
    intro x y h
    have hb : x < 10 ∨ y < 10 := by omega
    rw [karatsuba, if_pos hb]
  | succ k ih =>
    intro x y h
    by_cases hb : x < 10 ∨ y < 10
    · rw [karatsuba, if_pos hb]
    · rw [karatsuba, if_neg hb]
      simp only []
      have hx10 : (10:Int) ≤ x := by omega
      have hy10 : (10:Int) ≤ y := by omega
      have hm1 := one_le_half_max_len hx10 hy10
      have hmx := divisor_le_max hx10 hy10
      have e1 := measure_div hx10 hy10 hm1
      have e2 := measure_mod hx10 hy10 hmx
      have e3 := measure_sum hx10 hy10 hm1 hmx
      set m := max (pyLenStr x) (pyLenStr y) / 2 with hm
      rw [ih _ _ (by omega), ih _ _ (by omega), ih _ _ (by omega)]
      have ex := Int.fdiv_add_fmod x ((10:Int) ^ m)
      have ey := Int.fdiv_add_fmod y ((10:Int) ^ m)
      generalize hA : x.fdiv ((10:Int) ^ m) = A at *
      generalize hB : x.fmod ((10:Int) ^ m) = B at *
      generalize hC : y.fdiv ((10:Int) ^ m) = C at *
      generalize hE : y.fmod ((10:Int) ^ m) = E at *
      calc A * C * 10 ^ (2 * m) + ((A + B) * (C + E) - A * C - B * E) * 10 ^ m + B * E
          = (10 ^ m * A + B) * (10 ^ m * C + E) := by ring
      _ = x * y := by rw [ex, ey]

theorem karatsuba_eq_mul (x y : Int) : karatsuba x y = x * y :=
  karatsuba_mul_aux (x.toNat + y.toNat) x y le_rfl

/-- Fuel-indexed form of the same recursion as `karatsuba`, used to state
that the recursion reaches its base case in finitely many steps:
`none` means the fuel ran out before the base case was reached. -/
def karatsubaF : Nat → Int → Int → Option Int
  | 0, _, _ => none
  | fuel + 1, x, y =>
    if x < 10 ∨ y < 10 then some (x * y)
    else
      let n := max (pyLenStr x) (pyLenStr y)
      let m := n / 2
      let divisor : Int := 10 ^ m
      let a := x.fdiv divisor
      let b := x.fmod divisor
      let c := y.fdiv divisor
      let d := y.fmod divisor
      match karatsubaF fuel a c, karatsubaF fuel b d,
          karatsubaF fuel (a + b) (c + d) with
      | some ac, some bd, some abcd =>
        some (ac * 10 ^ (2 * m) + (abcd - ac - bd) * 10 ^ m + bd)
      | _, _, _ => none

theorem karatsubaF_aux : ∀ (fuel : Nat) (x y : Int),
    x.toNat + y.toNat < fuel → karatsubaF fuel x y = some (karatsuba x y) := by
  intro fuel
  induction fuel with
  | zero => intro x y h; omega
  | succ f ih =>
    intro x y h
    by_cases hb : x < 10 ∨ y < 10
    · rw [karatsubaF, if_pos hb, karatsuba, if_pos hb]
    · rw [karatsubaF, if_neg hb]
      simp only []
      have hx10 : (10:Int) ≤ x := by omega
      have hy10 : (10:Int) ≤ y := by omega
      have hm1 := one_le_half_max_len hx10 hy10
      have hmx := divisor_le_max hx10 hy10
      have e1 := measure_div hx10 hy10 hm1
      have e2 := measure_mod hx10 hy10 hmx
      have e3 := measure_sum hx10 hy10 hm1 hmx
      set m := max (pyLenStr x) (pyLenStr y) / 2 with hm
      rw [ih _ _ (by omega), ih _ _ (by omega), ih _ _ (by omega)]
      conv_rhs => rw [karatsuba, if_neg hb]

theorem pointwise_products_eval (x0 x1 x2 y0 y1 y2 : Int) :
    pointwise_products (evaluate_at_points x0 x1 x2) (evaluate_at_points y0 y1 y2) =
      [x0 * y0, (x0 + x1 + x2) * (y0 + y1 + y2), (x0 - x1 + x2) * (y0 - y1 + y2),
       (x0 + 2 * x1 + 4 * x2) * (y0 + 2 * y1 + 4 * y2), x2 * y2] := rfl

theorem interpolate_of_coeffs (c0 c1 c2 c3 c4 : Int) :
    interpolate [c0, c0 + c1 + c2 + c3 + c4, c0 - c1 + c2 - c3 + c4,
      c0 + 2 * c1 + 4 * c2 + 8 * c3 + 16 * c4, c4] = some (c0, c1, c2, c3, c4) := by
  unfold interpolate
  simp only []
  have h1 : (c0 + c1 + c2 + c3 + c4 + (c0 - c1 + c2 - c3 + c4)).fdiv 2 =
      c0 + c2 + c4 := fdiv_exact (by ring) (by norm_num)
  have h2 : (c0 + c1 + c2 + c3 + c4 - (c0 - c1 + c2 - c3 + c4)).fdiv 2 =
      c1 + c3 := fdiv_exact (by ring) (by norm_num)
  rw [h1, h2]
  have hD : (5 * (c1 + c3) - (c0 + 2 * c1 + 4 * c2 + 8 * c3 + 16 * c4 - c0 -
      4 * (c0 + c2 + c4 - c0 - c4) - 16 * c4)).fdiv 3 = c1 - c3 :=
    fdiv_exact (by ring) (by norm_num)
  rw [hD]
  have hc1 : (c1 + c3 + (c1 - c3)).fdiv 2 = c1 := fdiv_exact (by ring) (by norm_num)
  have hc3 : (c1 + c3 - (c1 - c3)).fdiv 2 = c3 := fdiv_exact (by ring) (by norm_num)
  rw [hc1, hc3]
  have hc2 : c0 + c2 + c4 - c0 - c4 = c2 := by ring
  rw [hc2]

theorem interpolate_pointwise (x0 x1 x2 y0 y1 y2 : Int) :
    interpolate (pointwise_products (evaluate_at_points x0 x1 x2)
        (evaluate_at_points y0 y1 y2)) =
      some (x0 * y0, x0 * y1 + x1 * y0, x0 * y2 + x1 * y1 + x2 * y0,
        x1 * y2 + x2 * y1, x2 * y2) := by
  rw [pointwise_products_eval]
  rw [show (x0 + x1 + x2) * (y0 + y1 + y2) =
      x0 * y0 + (x0 * y1 + x1 * y0) + (x0 * y2 + x1 * y1 + x2 * y0) +
        (x1 * y2 + x2 * y1) + x2 * y2 from by ring]
  rw [show (x0 - x1 + x2) * (y0 - y1 + y2) =
      x0 * y0 - (x0 * y1 + x1 * y0) + (x0 * y2 + x1 * y1 + x2 * y0) -
        (x1 * y2 + x2 * y1) + x2 * y2 from by ring]
  rw [show (x0 + 2 * x1 + 4 * x2) * (y0 + 2 * y1 + 4 * y2) =
      x0 * y0 + 2 * (x0 * y1 + x1 * y0) + 4 * (x0 * y2 + x1 * y1 + x2 * y0) +
        8 * (x1 * y2 + x2 * y1) + 16 * (x2 * y2) from by ring]
  exact interpolate_of_coeffs _ _ _ _ _

theorem split_number_recombine (n b : Int) (hn : 0 ≤ n) (hb : 0 < b) :
    (split_number n b).1 + (split_number n b).2.1 * b +
      (split_number n b).2.2 * (b * b) = n := by
  obtain ⟨N, rfl⟩ := Int.eq_ofNat_of_zero_le hn
  obtain ⟨B, rfl⟩ := Int.eq_ofNat_of_zero_le hb.le
  have hB : 0 < B := by exact_mod_cast hb
  unfold split_number
  simp only []
  rw [show ((B : Int) * B) = ((B * B : Nat) : Int) from by push_cast; ring]
  rw [coe_fmod, coe_fdiv, coe_fmod, coe_fdiv]
  have h3 : N / B / B = N / (B * B) := Nat.div_div_eq_div_mul N B B
  rw [← h3]
  have h1 : B * (N / B) + N % B = N := Nat.div_add_mod N B
  have h2 : B * (N / B / B) + N / B % B = N / B := Nat.div_add_mod (N / B) B
  push_cast
  conv_rhs => rw [← h1, ← h2]
  push_cast
  ring

theorem toom3_eq_mul (x y : Int) : toom3 x y = some (x * y) := by
  unfold toom3
  by_cases hb : x < 1000 ∨ y < 1000
  · rw [if_pos hb]
  · rw [if_neg hb]
    simp only []
    rw [interpolate_pointwise]
    simp only [Option.map_some']
    set b : Int := 10 ^ ((max (pyLenStr x) (pyLenStr y)) / 3) with hbdef
    have hbpos : (0 : Int) < b := by rw [hbdef]; positivity
    have ex := split_number_recombine x b (by omega) hbpos
    have ey := split_number_recombine y b (by omega) hbpos
    set sx := split_number x b
    set sy := split_number y b
    refine congrArg some ?_
    calc sx.1 * sy.1 + (sx.1 * sy.2.1 + sx.2.1 * sy.1) * b +
          (sx.1 * sy.2.2 + sx.2.1 * sy.2.1 + sx.2.2 * sy.1) * b ^ 2 +
          (sx.2.1 * sy.2.2 + sx.2.2 * sy.2.1) * b ^ 3 + sx.2.2 * sy.2.2 * b ^ 4
        = (sx.1 + sx.2.1 * b + sx.2.2 * (b * b)) *
            (sy.1 + sy.2.1 * b + sy.2.2 * (b * b)) := by ring
    _ = x * y := by rw [ex, ey]

/-- C1: for every pair of non-negative integers `x` and `y`, `toom3 x y`
returns the exact mathematical product `x * y` (as `some (x * y)` in the
`Option`-valued embedding), including pairs where one operand is below the
1000 fallback threshold and the other above it, and pairs whose three-way
split produces zero parts. -/
theorem toom3_exact (x y : Int) (_hx : 0 ≤ x) (_hy : 0 ≤ y) :
    toom3 x y = some (x * y) :=
  toom3_eq_mul x y

/-- Witness for C1, at a pair straddling the fallback threshold. -/
theorem toom3_exact_witness :
    (0 : Int) ≤ 5 ∧ (0 : Int) ≤ 1234567 ∧ toom3 5 1234567 = some (5 * 1234567) :=
  ⟨by decide, by decide, toom3_exact 5 1234567 (by decide) (by decide)⟩

/-- C2: for every pair of non-negative integers `x` and `y`,
`karatsuba x y` returns the exact mathematical product `x * y`. -/
theorem karatsuba_exact (x y : Int) (_hx : 0 ≤ x) (_hy : 0 ≤ y) :
    karatsuba x y = x * y :=
  karatsuba_eq_mul x y

/-- Witness for C2. -/
theorem karatsuba_exact_witness :
    (0 : Int) ≤ 123 ∧ (0 : Int) ≤ 456 ∧ karatsuba 123 456 = 123 * 456 :=
  ⟨by decide, by decide, karatsuba_exact 123 456 (by decide) (by decide)⟩

/-- C3: for every input to `interpolate` reachable as the pointwise
products of two `evaluate_at_points` outputs on arbitrary integer
triples, all the divisions performed inside `interpolate` are exact:
`2` divides `r1 + r_minus_1`, `2` divides `r1 - r_minus_1`, `3` divides
`5 * S - temp`, and `2` divides both `S + D` and `S - D`, so floor
division introduces no truncation. -/
theorem interpolate_divisions_exact (x0 x1 x2 y0 y1 y2 r0 r1 r_minus_1 r2 r_inf c2 S temp D : Int)
    (hpts : [r0, r1, r_minus_1, r2, r_inf] =
      pointwise_products (evaluate_at_points x0 x1 x2) (evaluate_at_points y0 y1 y2))
    (hc2 : c2 = (r1 + r_minus_1).fdiv 2 - r0 - r_inf)
    (hS : S = (r1 - r_minus_1).fdiv 2)
    (htemp : temp = r2 - r0 - 4 * c2 - 16 * r_inf)
    (hD : D = (5 * S - temp).fdiv 3) :
    (2 ∣ r1 + r_minus_1) ∧ (2 ∣ r1 - r_minus_1) ∧ (3 ∣ 5 * S - temp) ∧
      (2 ∣ S + D) ∧ (2 ∣ S - D) := by
  subst hD
  subst htemp
  subst hS
  subst hc2
  rw [pointwise_products_eval] at hpts
  simp only [List.cons.injEq, and_true] at hpts
  obtain ⟨h0, h1, hm1, h2, hinf⟩ := hpts
  subst h0
  subst h1
  subst hm1
  subst h2
  subst hinf
  have hc2 : ((x0 + x1 + x2) * (y0 + y1 + y2) +
      (x0 - x1 + x2) * (y0 - y1 + y2)).fdiv 2 =
      x0 * y0 + (x0 * y2 + x1 * y1 + x2 * y0) + x2 * y2 :=
    fdiv_exact (by ring) (by norm_num)
  have hS : ((x0 + x1 + x2) * (y0 + y1 + y2) -
      (x0 - x1 + x2) * (y0 - y1 + y2)).fdiv 2 =
      (x0 * y1 + x1 * y0) + (x1 * y2 + x2 * y1) :=
    fdiv_exact (by ring) (by norm_num)
  rw [hc2, hS]
  have hD : (5 * ((x0 * y1 + x1 * y0) + (x1 * y2 + x2 * y1)) -
      ((x0 + 2 * x1 + 4 * x2) * (y0 + 2 * y1 + 4 * y2) - x0 * y0 -
        4 * (x0 * y0 + (x0 * y2 + x1 * y1 + x2 * y0) + x2 * y2 - x0 * y0 -
          x2 * y2) - 16 * (x2 * y2))).fdiv 3 =
      (x0 * y1 + x1 * y0) - (x1 * y2 + x2 * y1) :=
    fdiv_exact (by ring) (by norm_num)
  rw [hD]
  exact ⟨⟨x0 * y0 + (x0 * y2 + x1 * y1 + x2 * y0) + x2 * y2, by ring⟩,
    ⟨(x0 * y1 + x1 * y0) + (x1 * y2 + x2 * y1), by ring⟩,
    ⟨(x0 * y1 + x1 * y0) - (x1 * y2 + x2 * y1), by ring⟩,
    ⟨x0 * y1 + x1 * y0, by ring⟩,
    ⟨x1 * y2 + x2 * y1, by ring⟩⟩

/-- Witness for C3, at the triples `(1, 2, 3)` and `(4, 5, 6)`:
the pointwise products are `[4, 90, 10, 646, 18]`, giving `c2 = 28`,
`S = 40`, `temp = 242`, `D = -14`. -/
theorem interpolate_divisions_exact_witness :
    (2 ∣ (90 : Int) + 10) ∧ (2 ∣ (90 : Int) - 10) ∧
      (3 ∣ 5 * (40 : Int) - 242) ∧ (2 ∣ (40 : Int) + (-14)) ∧
      (2 ∣ (40 : Int) - (-14)) :=
  interpolate_divisions_exact 1 2 3 4 5 6 4 90 10 646 18 28 40 242 (-14)
    (by decide) (by decide) (by decide) (by decide) (by decide)

/-- Counterexample to C4 as stated: interpolating the raw evaluation
vector of the triple `(0, 0, 1)` (each evaluation multiplied by `1`)
does not recover `(0, 0, 1, 0, 0)`; it yields `(0, 2, 0, -2, 1)`,
because `interpolate` reads the last entry as the degree-4 coefficient
while `evaluate_at_points` puts the degree-2 coefficient there. -/
theorem interpolate_identity_cex :
    interpolate (evaluate_at_points 0 0 1) ≠ some (0, 0, 1, 0, 0) := by decide

/-- C4 as amended: interpolating the pointwise product of
`evaluate_at_points a b c` with the evaluation vector of the constant
polynomial `1` — the triple `(1, 0, 0)`, whose evaluation at `∞` is `0`,
not `1` — recovers exactly `(a, b, c, 0, 0)`. -/
theorem interpolate_identity (a b c : Int) :
    interpolate (pointwise_products (evaluate_at_points a b c)
      (evaluate_at_points 1 0 0)) = some (a, b, c, 0, 0) := by
  rw [interpolate_pointwise]
  norm_num

/-- Counterexample to C5 as stated: on the 5-element list
`[0, 1, 0, 0, 0]` the first interpolation division has dividend
`r1 + r_minus_1 = 1` with non-zero remainder mod `2`, yet `interpolate`
does not fail: it silently floor-truncates and returns a 5-tuple. -/
theorem interpolate_truncates_cex :
    ((1 : Int) + 0).fmod 2 ≠ 0 ∧
      interpolate [0, 1, 0, 0, 0] = some (0, 0, 0, 0, 0) := by decide

/-- C5 as amended: `interpolate` never fails on a 5-element list — it
contains no assertion and silently floor-truncates inexact divisions —
and fails (raises, modelled as `none`) exactly on lists whose length is
not 5. -/
theorem interpolate_total (l : List Int) :
    (interpolate l).isSome ↔ l.length = 5 := by
  rcases l with _ | ⟨a, _ | ⟨b, _ | ⟨c, _ | ⟨d, _ | ⟨e, _ | ⟨f, t⟩⟩⟩⟩⟩⟩ <;>
    simp [interpolate]

/-- C6: for every non-negative integer `n` and positive base `b`,
`split_number n b` returns exactly `(n % b, n / b % b, n / b^2)`, the
reconstruction `x0 + x1*b + x2*b^2` equals `n`, and
`split_number 0 b = (0, 0, 0)`. -/
theorem split_number_spec (n b : Int) (hn : 0 ≤ n) (hb : 0 < b) :
    split_number n b = (n % b, n / b % b, n / (b * b)) ∧
      (split_number n b).1 + (split_number n b).2.1 * b +
        (split_number n b).2.2 * (b * b) = n ∧
      split_number 0 b = (0, 0, 0) := by
  refine ⟨?_, split_number_recombine n b hn hb, ?_⟩
  · unfold split_number
    simp only []
    rw [Int.fmod_eq_emod n hb.le, Int.fdiv_eq_ediv n hb.le,
      Int.fmod_eq_emod (n / b) hb.le, Int.fdiv_eq_ediv n (by positivity)]
  · unfold split_number
    simp

/-- Witness for C6, at `n = 12345`, `b = 10`. -/
theorem split_number_spec_witness :
    split_number 12345 10 = ((12345 : Int) % 10, 12345 / 10 % 10, 12345 / (10 * 10)) ∧
      (split_number 12345 10).1 + (split_number 12345 10).2.1 * 10 +
        (split_number 12345 10).2.2 * (10 * 10) = 12345 ∧
      split_number 0 10 = (0, 0, 0) :=
  split_number_spec 12345 10 (by decide) (by decide)

/-- Evaluation of `toom3` at an input above the Toom-3 threshold on both
sides (recorded for C7).  The returned product is exact, but the code
computes the five pointwise sub-products at lines 158-159 of `toom3.py`
with the primitive multiplication `px[i] * py[i]` — there is no recursive
call and no algorithm selector anywhere in `toom3`, contrary to the
claimed recursive dispatch. -/
theorem toom3_above_threshold_eval :
    toom3 1000000 1000000 = some (1000000 * 1000000) :=
  toom3_eq_mul 1000000 1000000

/-- C8: the recursion of `karatsuba` is well-founded: with fuel
`x.toNat + y.toNat + 1` the fuel-indexed form of the recursion,
`karatsubaF`, reaches the base case before running out of fuel and
computes `karatsuba x y`, for every pair of integers.  (`toom3` makes no
recursive calls at all, so it terminates by construction.) -/
theorem karatsuba_terminates (x y : Int) :
    karatsubaF (x.toNat + y.toNat + 1) x y = some (karatsuba x y) :=
  karatsubaF_aux _ x y (by omega)

/-- Counterexample to C9 as stated: at `n = 1000`, `b = 10` the top part
produced by `split_number` is `1000 / 10^2 = 10`, which is not strictly
less than `b = 10`; the source applies no modulus to the top part. -/
theorem split_number_top_part_cex :
    (0 : Int) ≤ 1000 ∧ (0 : Int) < 10 ∧
      ¬ ((split_number 1000 10).2.2 < 10) := by decide

/-- C9 as amended: for every non-negative integer `n` and positive base
`b`, the two low parts produced by `split_number` lie in `[0, b)` and
all three parts are non-negative; the top part `n / b^2` is non-negative
but not bounded by `b` in general. -/
theorem split_number_parts_bounds (n b : Int) (hn : 0 ≤ n) (hb : 0 < b) :
    0 ≤ (split_number n b).1 ∧ (split_number n b).1 < b ∧
      0 ≤ (split_number n b).2.1 ∧ (split_number n b).2.1 < b ∧
      0 ≤ (split_number n b).2.2 := by
  unfold split_number
  simp only []
  exact ⟨Int.fmod_nonneg' n hb, Int.fmod_lt_of_pos n hb,
    Int.fmod_nonneg' _ hb, Int.fmod_lt_of_pos _ hb,
    Int.fdiv_nonneg hn (by positivity)⟩

/-- Witness for the amended C9, at `n = 12345`, `b = 10`. -/
theorem split_number_parts_bounds_witness :
    0 ≤ (split_number 12345 10).1 ∧ (split_number 12345 10).1 < 10 ∧
      0 ≤ (split_number 12345 10).2.1 ∧ (split_number 12345 10).2.1 < 10 ∧
      0 ≤ (split_number 12345 10).2.2 :=
  split_number_parts_bounds 12345 10 (by decide) (by decide)

/-- C10: for every pair of integers in which at least one operand is
negative, both `karatsuba` and `toom3` still return the exact product
`x * y`: a negative operand always satisfies the base-case guard
(`x < 10` or `y < 10` for Karatsuba, `x < 1000` or `y < 1000` for
Toom-3), so the call returns `x * y` directly without splitting. -/
theorem negative_operand_exact (x y : Int) (_h : x < 0 ∨ y < 0) :
    karatsuba x y = x * y ∧ toom3 x y = some (x * y) :=
  ⟨karatsuba_eq_mul x y, toom3_eq_mul x y⟩

/-- Witness for C10, at `x = -5`, `y = 7`. -/
theorem negative_operand_exact_witness :
    karatsuba (-5) 7 = (-5) * 7 ∧ toom3 (-5) 7 = some ((-5) * 7) :=
  negative_operand_exact (-5) 7 (by decide)
